import Mathlib

/-!
Shallow embedding of `DefaultCompress::compress` from
`src/particle_operations/compress.h` (vpic-kokkos), together with proofs of
the specification claims about it.

Modelling choices, recorded once here:

* The seven float lanes of the `k_particles` view (`dx dy dz ux uy uz w`) are
  only ever copied wholesale by this kernel, never computed with, so their
  carrier is modelled as `Int` (any type with decidable equality would do);
  copy semantics is preserved exactly.
* `int32_t` index arithmetic is modelled on `Int` (mathematical integers).
  All quantities the kernel manipulates on valid inputs are far below the
  `int32_t` range, and intermediate values that can go negative in C
  (for example `np - 2*nm` when `2*nm > np`) stay faithful on `Int`.
* Kokkos views are modelled as total functions on `Int`; Kokkos
  zero-initialises views, so the marker view starts at `false` and
  out-of-range reads of the clean-up views are modelled by `List.getD _ _ 0`,
  matching the zero fill.  On valid inputs every access is in bounds
  (claim C10).
* Each `parallel_for` is embedded as a sequential fold over its index range.
  Within each loop every write targets a slot below `np - nm` and every read
  of particle data comes from a slot at or above `np - nm` (proved below), so
  the loop iterations are independent and the fold computes the unique
  data-race-free parallel outcome; the deferred lists are appended in index
  order, one fixed serialisation of the atomic fetch-and-add.
-/

namespace VpicCompress

/-- A full particle record as held by the structure-of-arrays view
`k_particles`: position `dx dy dz`, momentum `ux uy uz`, weight `w`. -/
structure Particle where
  dx : Int
  dy : Int
  dz : Int
  ux : Int
  uy : Int
  uz : Int
  w : Int
deriving DecidableEq, Repr

/-- The state mutated in place by `compress`: the particle view
`k_particles` (seven lanes, one record per slot) and the separate identity
view `k_particles_i`. -/
structure CompressState where
  particles : Int → Particle
  particles_i : Int → Int

/-- The full record held at slot `k`: all seven particle lanes plus the
identity tag. -/
def record (st : CompressState) (k : Int) : Particle × Int :=
  (st.particles k, st.particles_i k)

/-- The eight assignments `particles(write_to, dx) = particles(pull_from, dx)`
... `particles_i(write_to) = particles_i(pull_from)` of compress.h lines
164-171 (and identically lines 183-190): a whole-record copy from slot
`pull_from` into slot `write_to`. -/
def copyParticle (st : CompressState) (write_to pull_from : Int) : CompressState :=
  { particles := Function.update st.particles write_to
      { dx := (st.particles pull_from).dx
        dy := (st.particles pull_from).dy
        dz := (st.particles pull_from).dz
        ux := (st.particles pull_from).ux
        uy := (st.particles pull_from).uy
        uz := (st.particles pull_from).uz
        w := (st.particles pull_from).w }
    particles_i := Function.update st.particles_i write_to (st.particles_i pull_from) }

/-- Body of the danger-zone marking loop (compress.h lines 85-98) for one
mover entry `pmi`: if `pmi >= np - 2*nm` the slot lies in the danger zone and
the marker at reverse index `(np-1) - pmi` is set. -/
def markStep (np nm : Int) (u : Int → Bool) (pmi : Int) : Int → Bool :=
  if pmi ≥ np - 2 * nm then Function.update u ((np - 1) - pmi) true else u

/-- The `unsafe_index` view after the first `parallel_for` (compress.h lines
83-98): the loop over `i` in `[0, nm)` reads `particle_movers_i(i)` and marks
the danger-zone gaps; the view starts zero-initialised (`false`). -/
def gapMarker (np nm : Int) (movers : List Int) : Int → Bool :=
  (List.range nm.toNat).foldl (fun u i => markStep np nm u (movers.getD i 0))
    (fun _ => false)

/-- Output of the backfill `parallel_for`: the particle state together with
the `clean_up_from` and `clean_up_to` lists (their lengths are the final
values of the atomic counters `clean_up_from_count` / `clean_up_to_count`). -/
structure Phase2Out where
  st : CompressState
  clean_up_from : List Int
  clean_up_to : List Int

/-- Body of the backfill `parallel_for` (compress.h lines 102-172) for one
unit of work `n`: `pull_from = (np-1) - n`, `write_to =
particle_movers_i(nm-n-1)`, `danger_zone = np - nm`; then the decision
structure of lines 114-171. -/
def backfillStep (np nm : Int) (movers : List Int) (u : Int → Bool)
    (acc : Phase2Out) (n : Nat) : Phase2Out :=
  let pull_from : Int := (np - 1) - (n : Int)
  let write_to : Int := movers.getD (nm - (n : Int) - 1).toNat 0
  let danger_zone : Int := np - nm
  if pull_from = write_to then acc
  else if write_to ≥ danger_zone then
    if pull_from ≥ danger_zone then
      if u ((np - 1) - pull_from) = false then
        { acc with clean_up_from := acc.clean_up_from ++ [pull_from] }
      else acc
    else acc
  else if u (n : Int) = true then
    { acc with clean_up_to := acc.clean_up_to ++ [write_to] }
  else
    { acc with st := copyParticle acc.st write_to pull_from }

/-- The backfill `parallel_for` (compress.h lines 102-172): one unit of work
per `n` in `[0, nm)`, starting from the given state and empty clean-up
lists. -/
def backfill (np nm : Int) (movers : List Int) (u : Int → Bool)
    (st : CompressState) : Phase2Out :=
  (List.range nm.toNat).foldl (backfillStep np nm movers u) ⟨st, [], []⟩

/-- The reconciliation `parallel_for` (compress.h lines 177-191): for each
`n` in `[0, clean_up_from_count)` copy the record at `clean_up_from(n)` into
`clean_up_to(n)`. -/
def cleanUp (clean_up_from clean_up_to : List Int) (st : CompressState) :
    CompressState :=
  (List.range clean_up_from.length).foldl
    (fun s n => copyParticle s (clean_up_to.getD n 0) (clean_up_from.getD n 0)) st

/-- The whole of `DefaultCompress::compress`: danger-zone marking, parallel
backfill, then reconciliation. -/
def compress (np nm : Int) (movers : List Int) (st : CompressState) :
    CompressState :=
  let u := gapMarker np nm movers
  let p2 := backfill np nm movers u st
  cleanUp p2.clean_up_from p2.clean_up_to p2.st

/-- The caller-provided precondition of compress.h: `movers` holds the `nm`
gap indices, pairwise distinct and each in `[0, np)`, and `nm <= np`. -/
def ValidInput (np nm : Int) (movers : List Int) : Prop :=
  (movers.length : Int) = nm ∧ nm ≤ np ∧ movers.Nodup ∧
    ∀ m ∈ movers, 0 ≤ m ∧ m < np

instance (np nm : Int) (movers : List Int) : Decidable (ValidInput np nm movers) := by
  unfold ValidInput
  infer_instance

/-- A concrete particle state whose slots are pairwise distinguishable, used
to instantiate theorems at concrete inputs. -/
def testState : CompressState :=
  { particles := fun k => ⟨k, 2 * k, 3 * k, 5 * k, 7 * k, 11 * k, 13 * k⟩
    particles_i := fun k => k }

/-! ### Write/source pair lists

Each whole-record copy performed by the kernel is a pair
`(write_to, pull_from)`.  The three Bool conditions below restate, for one
unit of work `n` of the backfill loop, exactly the conditions under which it
reaches each of its three effectful outcomes (append to `clean_up_from`,
append to `clean_up_to`, whole-record copy). -/

/-- Condition under which backfill unit `n` appends `pull_from` to
`clean_up_from` (compress.h lines 114-134). -/
def condFromB (np nm : Int) (movers : List Int) (u : Int → Bool) (n : Nat) : Bool :=
  let pull_from : Int := (np - 1) - (n : Int)
  let write_to : Int := movers.getD (nm - (n : Int) - 1).toNat 0
  let danger_zone : Int := np - nm
  decide (pull_from ≠ write_to ∧ write_to ≥ danger_zone ∧
    pull_from ≥ danger_zone ∧ u ((np - 1) - pull_from) = false)

/-- Condition under which backfill unit `n` appends `write_to` to
`clean_up_to` (compress.h lines 114-151). -/
def condToB (np nm : Int) (movers : List Int) (u : Int → Bool) (n : Nat) : Bool :=
  let pull_from : Int := (np - 1) - (n : Int)
  let write_to : Int := movers.getD (nm - (n : Int) - 1).toNat 0
  let danger_zone : Int := np - nm
  decide (pull_from ≠ write_to ∧ ¬ write_to ≥ danger_zone ∧ u (n : Int) = true)

/-- Condition under which backfill unit `n` performs the whole-record copy
(compress.h lines 114-171). -/
def condCopyB (np nm : Int) (movers : List Int) (u : Int → Bool) (n : Nat) : Bool :=
  let pull_from : Int := (np - 1) - (n : Int)
  let write_to : Int := movers.getD (nm - (n : Int) - 1).toNat 0
  let danger_zone : Int := np - nm
  decide (pull_from ≠ write_to ∧ ¬ write_to ≥ danger_zone ∧ ¬ u (n : Int) = true)

/-- Fold a list of `(write_to, pull_from)` pairs into whole-record copies. -/
def copyFold (st : CompressState) (ps : List (Int × Int)) : CompressState :=
  ps.foldl (fun s p => copyParticle s p.1 p.2) st

/-- The `(write_to, pull_from)` pairs of the whole-record copies performed by
the backfill loop, in unit-of-work order. -/
def phase2Pairs (np nm : Int) (movers : List Int) (u : Int → Bool) :
    List (Int × Int) :=
  ((List.range nm.toNat).filter (condCopyB np nm movers u)).map
    (fun n : Nat => (movers.getD (nm - (n : Int) - 1).toNat 0, (np - 1) - (n : Int)))

/-- The `(write_to, pull_from)` pairs of the whole-record copies performed by
the reconciliation loop, in loop order. -/
def phase3Pairs (clean_up_from clean_up_to : List Int) : List (Int × Int) :=
  (List.range clean_up_from.length).map
    (fun n : Nat => (clean_up_to.getD n 0, clean_up_from.getD n 0))

theorem cleanUp_eq_copyFold (clean_up_from clean_up_to : List Int)
    (st : CompressState) :
    cleanUp clean_up_from clean_up_to st =
      copyFold st (phase3Pairs clean_up_from clean_up_to) := by
  simp [cleanUp, copyFold, phase3Pairs, List.foldl_map]

theorem backfillStep_ite (np nm : Int) (movers : List Int) (u : Int → Bool)
    (acc : Phase2Out) (n : Nat) :
    backfillStep np nm movers u acc n =
      if (np - 1) - (n : Int) = movers.getD (nm - (n : Int) - 1).toNat 0 then acc
      else if movers.getD (nm - (n : Int) - 1).toNat 0 ≥ np - nm then
        if (np - 1) - (n : Int) ≥ np - nm then
          if u ((np - 1) - ((np - 1) - (n : Int))) = false then
            { acc with clean_up_from := acc.clean_up_from ++ [(np - 1) - (n : Int)] }
          else acc
        else acc
      else if u (n : Int) = true then
        { acc with clean_up_to := acc.clean_up_to ++ [movers.getD (nm - (n : Int) - 1).toNat 0] }
      else
        { acc with st := copyParticle acc.st (movers.getD (nm - (n : Int) - 1).toNat 0) ((np - 1) - (n : Int)) } := rfl

theorem backfill_foldl (np nm : Int) (movers : List Int) (u : Int → Bool)
    (l : List Nat) :
    ∀ acc : Phase2Out,
      l.foldl (backfillStep np nm movers u) acc =
        ⟨copyFold acc.st ((l.filter (condCopyB np nm movers u)).map
            (fun n : Nat => (movers.getD (nm - (n : Int) - 1).toNat 0, (np - 1) - (n : Int)))),
          acc.clean_up_from ++ (l.filter (condFromB np nm movers u)).map
            (fun n : Nat => (np - 1) - (n : Int)),
          acc.clean_up_to ++ (l.filter (condToB np nm movers u)).map
            (fun n : Nat => movers.getD (nm - (n : Int) - 1).toNat 0)⟩ := by
  induction l with
  | nil => intro acc; simp [copyFold]
  | cons n l ih =>
      intro acc
      rw [List.foldl_cons, ih]
      by_cases h1 : (np - 1) - (n : Int) = movers.getD (nm - (n : Int) - 1).toNat 0
      · have hf : condFromB np nm movers u n = false := by
          simp only [condFromB, decide_eq_false_iff_not]
          rintro ⟨hc, -⟩; exact hc h1
        have ht : condToB np nm movers u n = false := by
          simp only [condToB, decide_eq_false_iff_not]
          rintro ⟨hc, -⟩; exact hc h1
        have hc : condCopyB np nm movers u n = false := by
          simp only [condCopyB, decide_eq_false_iff_not]
          rintro ⟨hc, -⟩; exact hc h1
        rw [backfillStep_ite, if_pos h1]
        simp [List.filter_cons, hf, ht, hc]
      · by_cases h2 : movers.getD (nm - (n : Int) - 1).toNat 0 ≥ np - nm
        · by_cases h3 : (np - 1) - (n : Int) ≥ np - nm
          · by_cases h4 : u ((np - 1) - ((np - 1) - (n : Int))) = false
            · have hf : condFromB np nm movers u n = true := by
                simp only [condFromB, decide_eq_true_eq]
                exact ⟨h1, h2, h3, h4⟩
              have ht : condToB np nm movers u n = false := by
                simp only [condToB, decide_eq_false_iff_not]
                rintro ⟨-, hc, -⟩; exact hc h2
              have hc : condCopyB np nm movers u n = false := by
                simp only [condCopyB, decide_eq_false_iff_not]
                rintro ⟨-, hc, -⟩; exact hc h2
              rw [backfillStep_ite, if_neg h1, if_pos h2, if_pos h3, if_pos h4]
              simp [List.filter_cons, hf, ht, hc]
            · have hf : condFromB np nm movers u n = false := by
                simp only [condFromB, decide_eq_false_iff_not]
                rintro ⟨-, -, -, hc⟩; exact h4 hc
              have ht : condToB np nm movers u n = false := by
                simp only [condToB, decide_eq_false_iff_not]
                rintro ⟨-, hc, -⟩; exact hc h2
              have hc : condCopyB np nm movers u n = false := by
                simp only [condCopyB, decide_eq_false_iff_not]
                rintro ⟨-, hc, -⟩; exact hc h2
              rw [backfillStep_ite, if_neg h1, if_pos h2, if_pos h3, if_neg h4]
              simp [List.filter_cons, hf, ht, hc]
          · have hf : condFromB np nm movers u n = false := by
              simp only [condFromB, decide_eq_false_iff_not]
              rintro ⟨-, -, hc, -⟩; exact h3 hc
            have ht : condToB np nm movers u n = false := by
              simp only [condToB, decide_eq_false_iff_not]
              rintro ⟨-, hc, -⟩; exact hc h2
            have hc : condCopyB np nm movers u n = false := by
              simp only [condCopyB, decide_eq_false_iff_not]
              rintro ⟨-, hc, -⟩; exact hc h2
            rw [backfillStep_ite, if_neg h1, if_pos h2, if_neg h3]
            simp [List.filter_cons, hf, ht, hc]
        · by_cases h5 : u (n : Int) = true
          · have hf : condFromB np nm movers u n = false := by
              simp only [condFromB, decide_eq_false_iff_not]
              rintro ⟨-, hc, -⟩; exact h2 hc
            have ht : condToB np nm movers u n = true := by
              simp only [condToB, decide_eq_true_eq]
              exact ⟨h1, h2, h5⟩
            have hc : condCopyB np nm movers u n = false := by
              simp only [condCopyB, decide_eq_false_iff_not]
              rintro ⟨-, -, hc⟩; exact hc h5
            rw [backfillStep_ite, if_neg h1, if_neg h2, if_pos h5]
            simp [List.filter_cons, hf, ht, hc]
          · have hf : condFromB np nm movers u n = false := by
              simp only [condFromB, decide_eq_false_iff_not]
              rintro ⟨-, hc, -⟩; exact h2 hc
            have ht : condToB np nm movers u n = false := by
              simp only [condToB, decide_eq_false_iff_not]
              rintro ⟨-, -, hc⟩; exact h5 hc
            have hc : condCopyB np nm movers u n = true := by
              simp only [condCopyB, decide_eq_true_eq]
              exact ⟨h1, h2, h5⟩
            rw [backfillStep_ite, if_neg h1, if_neg h2, if_neg h5]
            simp [List.filter_cons, hf, ht, hc, copyFold]

theorem backfill_st (np nm : Int) (movers : List Int) (u : Int → Bool)
    (st : CompressState) :
    (backfill np nm movers u st).st = copyFold st (phase2Pairs np nm movers u) := by
  rw [backfill, backfill_foldl, phase2Pairs]

theorem backfill_from (np nm : Int) (movers : List Int) (u : Int → Bool)
    (st : CompressState) :
    (backfill np nm movers u st).clean_up_from =
      ((List.range nm.toNat).filter (condFromB np nm movers u)).map
        (fun n : Nat => (np - 1) - (n : Int)) := by
  rw [backfill, backfill_foldl]
  simp

theorem backfill_to (np nm : Int) (movers : List Int) (u : Int → Bool)
    (st : CompressState) :
    (backfill np nm movers u st).clean_up_to =
      ((List.range nm.toNat).filter (condToB np nm movers u)).map
        (fun n : Nat => movers.getD (nm - (n : Int) - 1).toNat 0) := by
  rw [backfill, backfill_foldl]
  simp

theorem copyFold_append (st : CompressState) (ps qs : List (Int × Int)) :
    copyFold st (ps ++ qs) = copyFold (copyFold st ps) qs := by
  simp [copyFold, List.foldl_append]

theorem compress_eq_copyFold (np nm : Int) (movers : List Int)
    (st : CompressState) :
    compress np nm movers st =
      copyFold st
        (phase2Pairs np nm movers (gapMarker np nm movers) ++
          phase3Pairs
            (backfill np nm movers (gapMarker np nm movers) st).clean_up_from
            (backfill np nm movers (gapMarker np nm movers) st).clean_up_to) := by
  rw [compress, cleanUp_eq_copyFold, copyFold_append, backfill_st]

/-! ### The danger-zone marker -/

theorem markFold_spec (np nm : Int) (movers : List Int) (l : List Nat)
    (u0 : Int → Bool) (k : Int) :
    (l.foldl (fun u i => markStep np nm u (movers.getD i 0)) u0) k = true ↔
      u0 k = true ∨ ∃ i ∈ l, np - 2 * nm ≤ movers.getD i 0 ∧
        (np - 1) - movers.getD i 0 = k := by
  induction l generalizing u0 with
  | nil => simp
  | cons a l ih =>
      rw [List.foldl_cons, ih]
      rw [markStep]
      by_cases hg : movers.getD a 0 ≥ np - 2 * nm
      · rw [if_pos hg, Function.update_apply]
        constructor
        · rintro (h1 | h1)
          · by_cases hk : k = (np - 1) - movers.getD a 0
            · exact Or.inr ⟨a, List.mem_cons_self a l, hg, hk.symm⟩
            · rw [if_neg hk] at h1
              exact Or.inl h1
          · obtain ⟨i, hi, h3, h4⟩ := h1
            exact Or.inr ⟨i, List.mem_cons_of_mem a hi, h3, h4⟩
        · rintro (h1 | h1)
          · left
            by_cases hk : k = (np - 1) - movers.getD a 0
            · rw [if_pos hk]
            · rw [if_neg hk]
              exact h1
          · obtain ⟨i, hi, h3, h4⟩ := h1
            rcases List.mem_cons.mp hi with rfl | hi
            · left
              rw [if_pos h4.symm]
            · exact Or.inr ⟨i, hi, h3, h4⟩
      · rw [if_neg hg]
        constructor
        · rintro (h1 | h1)
          · exact Or.inl h1
          · obtain ⟨i, hi, h3, h4⟩ := h1
            exact Or.inr ⟨i, List.mem_cons_of_mem a hi, h3, h4⟩
        · rintro (h1 | h1)
          · exact Or.inl h1
          · obtain ⟨i, hi, h3, h4⟩ := h1
            rcases List.mem_cons.mp hi with rfl | hi
            · exact absurd h3 hg
            · exact Or.inr ⟨i, hi, h3, h4⟩

theorem gapMarker_spec (np nm : Int) (movers : List Int) (k : Int) :
    gapMarker np nm movers k = true ↔
      ∃ i : Nat, i < nm.toNat ∧ np - 2 * nm ≤ movers.getD i 0 ∧
        (np - 1) - movers.getD i 0 = k := by
  rw [gapMarker, markFold_spec]
  simp [List.mem_range]

/-! ### Facts about valid inputs -/

theorem ValidInput.len {np nm : Int} {movers : List Int}
    (h : ValidInput np nm movers) : movers.length = nm.toNat := by
  obtain ⟨h1, -, -, -⟩ := h
  omega

theorem ValidInput.nm_nonneg {np nm : Int} {movers : List Int}
    (h : ValidInput np nm movers) : 0 ≤ nm := by
  obtain ⟨h1, -, -, -⟩ := h
  omega

theorem ValidInput.nm_le_np {np nm : Int} {movers : List Int}
    (h : ValidInput np nm movers) : nm ≤ np := h.2.1

theorem ValidInput.nodup {np nm : Int} {movers : List Int}
    (h : ValidInput np nm movers) : movers.Nodup := h.2.2.1

theorem ValidInput.bounds {np nm : Int} {movers : List Int}
    (h : ValidInput np nm movers) : ∀ m ∈ movers, 0 ≤ m ∧ m < np := h.2.2.2

theorem getD_mem_of_lt (movers : List Int) (i : Nat) (hi : i < movers.length) :
    movers.getD i 0 ∈ movers := by
  rw [List.getD_eq_getElem movers 0 hi]
  exact List.getElem_mem hi

/-- On a valid input, the marker consulted at loop index `n < nm` answers
exactly whether tail slot `(np-1) - n` is a gap (named by some mover). -/
theorem gapMarker_iff_mem (np nm : Int) (movers : List Int)
    (h : ValidInput np nm movers) (n : Nat) (hn : n < nm.toNat) :
    gapMarker np nm movers (n : Int) = true ↔
      ((np - 1) - (n : Int)) ∈ movers := by
  rw [gapMarker_spec]
  constructor
  · rintro ⟨i, hi, hg, hk⟩
    have hlen := h.len
    have hmem : movers.getD i 0 ∈ movers := getD_mem_of_lt movers i (by omega)
    have he : movers.getD i 0 = (np - 1) - (n : Int) := by omega
    rwa [← he]
  · intro hm
    obtain ⟨i, hi, hval⟩ := List.mem_iff_getElem.mp hm
    have hlen := h.len
    have hnm := h.nm_nonneg
    refine ⟨i, by omega, ?_, ?_⟩
    · rw [List.getD_eq_getElem movers 0 hi, hval]
      omega
    · rw [List.getD_eq_getElem movers 0 hi, hval]
      omega

theorem writeTo_mem (np nm : Int) (movers : List Int)
    (h : ValidInput np nm movers) (n : Nat) (hn : n < nm.toNat) :
    movers.getD (nm - (n : Int) - 1).toNat 0 ∈ movers := by
  have hlen := h.len
  exact getD_mem_of_lt movers _ (by omega)

theorem writeTo_inj (np nm : Int) (movers : List Int)
    (h : ValidInput np nm movers) (n m : Nat) (hn : n < nm.toNat)
    (hm : m < nm.toNat)
    (heq : movers.getD (nm - (n : Int) - 1).toNat 0 =
      movers.getD (nm - (m : Int) - 1).toNat 0) : n = m := by
  have hlen := h.len
  have hn1 : (nm - (n : Int) - 1).toNat < movers.length := by omega
  have hm1 : (nm - (m : Int) - 1).toNat < movers.length := by omega
  rw [List.getD_eq_getElem movers 0 hn1, List.getD_eq_getElem movers 0 hm1] at heq
  have := (List.Nodup.getElem_inj_iff h.nodup).mp heq
  omega

/-! ### The three backfill outcomes on valid inputs -/

theorem condFromB_iff (np nm : Int) (movers : List Int)
    (h : ValidInput np nm movers) (n : Nat) (hn : n < nm.toNat) :
    condFromB np nm movers (gapMarker np nm movers) n = true ↔
      (np - nm ≤ movers.getD (nm - (n : Int) - 1).toNat 0 ∧
        ((np - 1) - (n : Int)) ∉ movers) := by
  have harg : (np - 1) - ((np - 1) - (n : Int)) = (n : Int) := by ring
  simp only [condFromB, decide_eq_true_eq]
  constructor
  · rintro ⟨-, h2, -, h4⟩
    rw [harg] at h4
    refine ⟨h2, ?_⟩
    intro hmem
    have hb := (gapMarker_iff_mem np nm movers h n hn).mpr hmem
    rw [hb] at h4
    exact absurd h4 (by simp)
  · rintro ⟨h2, h4⟩
    have hw := writeTo_mem np nm movers h n hn
    have hne : (np - 1) - (n : Int) ≠ movers.getD (nm - (n : Int) - 1).toNat 0 := by
      intro hcontra
      rw [hcontra] at h4
      exact h4 hw
    have hnm := h.nm_nonneg
    have hpf : (np - 1) - (n : Int) ≥ np - nm := by omega
    have hufalse : gapMarker np nm movers ((np - 1) - ((np - 1) - (n : Int))) = false := by
      rw [harg]
      cases hb : gapMarker np nm movers (n : Int) with
      | false => rfl
      | true => exact absurd ((gapMarker_iff_mem np nm movers h n hn).mp hb) h4
    exact ⟨hne, h2, hpf, hufalse⟩

theorem condToB_iff (np nm : Int) (movers : List Int)
    (h : ValidInput np nm movers) (n : Nat) (hn : n < nm.toNat) :
    condToB np nm movers (gapMarker np nm movers) n = true ↔
      (¬ np - nm ≤ movers.getD (nm - (n : Int) - 1).toNat 0 ∧
        ((np - 1) - (n : Int)) ∈ movers) := by
  simp only [condToB, decide_eq_true_eq]
  constructor
  · rintro ⟨-, h2, h5⟩
    exact ⟨h2, (gapMarker_iff_mem np nm movers h n hn).mp h5⟩
  · rintro ⟨h2, hmem⟩
    have hnm := h.nm_nonneg
    have hne : (np - 1) - (n : Int) ≠ movers.getD (nm - (n : Int) - 1).toNat 0 := by
      omega
    exact ⟨hne, h2, (gapMarker_iff_mem np nm movers h n hn).mpr hmem⟩

theorem condCopyB_iff (np nm : Int) (movers : List Int)
    (h : ValidInput np nm movers) (n : Nat) (hn : n < nm.toNat) :
    condCopyB np nm movers (gapMarker np nm movers) n = true ↔
      (¬ np - nm ≤ movers.getD (nm - (n : Int) - 1).toNat 0 ∧
        ((np - 1) - (n : Int)) ∉ movers) := by
  simp only [condCopyB, decide_eq_true_eq]
  constructor
  · rintro ⟨-, h2, h5⟩
    refine ⟨h2, ?_⟩
    intro hmem
    exact h5 ((gapMarker_iff_mem np nm movers h n hn).mpr hmem)
  · rintro ⟨h2, hmem⟩
    have hnm := h.nm_nonneg
    have hne : (np - 1) - (n : Int) ≠ movers.getD (nm - (n : Int) - 1).toNat 0 := by
      omega
    refine ⟨hne, h2, ?_⟩
    intro hb
    exact hmem ((gapMarker_iff_mem np nm movers h n hn).mp hb)

/-! ### Pointwise effect of a list of whole-record copies -/

theorem copyFold_cons (st : CompressState) (p : Int × Int)
    (ps : List (Int × Int)) :
    copyFold st (p :: ps) = copyFold (copyParticle st p.1 p.2) ps := rfl

theorem copyParticle_record_ne (st : CompressState) (a b k : Int) (h : a ≠ k) :
    record (copyParticle st a b) k = record st k := by
  simp [record, copyParticle, Function.update_apply, Ne.symm h]

theorem copyParticle_record_self (st : CompressState) (a b : Int) :
    record (copyParticle st a b) a = record st b := by
  simp [record, copyParticle, Function.update_same]

theorem copyFold_record_not_written (ps : List (Int × Int)) (k : Int) :
    ∀ st : CompressState, (∀ p ∈ ps, p.1 ≠ k) →
      record (copyFold st ps) k = record st k := by
  induction ps with
  | nil =>
      intro st _
      rfl
  | cons p ps ih =>
      intro st h
      rw [copyFold_cons,
        ih _ (fun q hq => h q (List.mem_cons_of_mem p hq))]
      exact copyParticle_record_ne st p.1 p.2 k (h p (List.mem_cons_self p ps))

theorem copyFold_record_written (ps : List (Int × Int)) (w r : Int) :
    ∀ st : CompressState, (ps.map Prod.fst).Nodup →
      (∀ p ∈ ps, ∀ q ∈ ps, p.1 ≠ q.2) → (w, r) ∈ ps →
      record (copyFold st ps) w = record st r := by
  induction ps with
  | nil =>
      intro st _ _ hmem
      cases hmem
  | cons p ps ih =>
      intro st hnd hsep hmem
      rw [List.map_cons] at hnd
      have hnd1 := (List.nodup_cons.mp hnd).1
      have hnd2 := (List.nodup_cons.mp hnd).2
      rw [copyFold_cons]
      rcases List.mem_cons.mp hmem with heq | hmem2
      · have hp1 : p.1 = w := by rw [← heq]
        have hp2 : p.2 = r := by rw [← heq]
        have hw : ∀ q ∈ ps, q.1 ≠ w := by
          intro q hq hq1
          apply hnd1
          rw [hp1]
          exact List.mem_map.mpr ⟨q, hq, hq1⟩
        rw [copyFold_record_not_written ps w _ hw, ← hp1, ← hp2]
        exact copyParticle_record_self st p.1 p.2
      · have hne : p.1 ≠ r :=
          hsep p (List.mem_cons_self p ps) (w, r) (List.mem_cons_of_mem p hmem2)
        rw [ih _ hnd2
          (fun a ha b hb =>
            hsep a (List.mem_cons_of_mem p ha) b (List.mem_cons_of_mem p hb))
          hmem2]
        exact copyParticle_record_ne st p.1 p.2 r hne

theorem map_getD_range (l : List Int) :
    (List.range l.length).map (fun j => l.getD j 0) = l := by
  apply List.ext_getElem
  · simp
  · intro n h1 h2
    simp only [List.getElem_map, List.getElem_range]
    rw [List.getD_eq_getElem l 0 h2]

/-! ### Claim theorems, first batch -/

/-- C4: after the danger-zone marking phase, marker entry `k` in `[0, 2*nm)`
is set if and only if array slot `np-1-k` is named by a mover entry and lies
in the danger zone `[np-2*nm, np)`; every other marker entry is still
`false`, its zero-initialised default. -/
theorem cl4_danger_zone_marking (np nm : Int) (movers : List Int)
    (h : ValidInput np nm movers) (k : Int) (hk0 : 0 ≤ k) (hk : k < 2 * nm) :
    gapMarker np nm movers k = true ↔
      (((np - 1) - k) ∈ movers ∧ np - 2 * nm ≤ (np - 1) - k) := by
  rw [gapMarker_spec]
  constructor
  · rintro ⟨i, hi, hg, hk1⟩
    have hlen := h.len
    have hmem := getD_mem_of_lt movers i (by omega)
    have he : movers.getD i 0 = (np - 1) - k := by omega
    rw [← he]
    exact ⟨hmem, hg⟩
  · rintro ⟨hmem, hg⟩
    obtain ⟨i, hi, hval⟩ := List.mem_iff_getElem.mp hmem
    have hlen := h.len
    refine ⟨i, by omega, ?_, ?_⟩
    · rw [List.getD_eq_getElem movers 0 hi, hval]
      exact hg
    · rw [List.getD_eq_getElem movers 0 hi, hval]
      omega

theorem cl4_witness :
    ValidInput 4 1 [3] ∧ (0 : Int) ≤ 0 ∧ (0 : Int) < 2 * 1 ∧
      (gapMarker 4 1 [3] 0 = true ↔
        (((4 : Int) - 1) - 0 ∈ [(3 : Int)] ∧ (4 : Int) - 2 * 1 ≤ (4 - 1) - 0)) :=
  ⟨by decide, by decide, by decide,
    cl4_danger_zone_marking 4 1 [3] (by decide) 0 (by decide) (by decide)⟩

/-- C8: a backfill unit of work `n` whose `pull_from` equals its `write_to`
is a no-op (compress.h line 114): the particle state and both clean-up lists
come out exactly as they went in. -/
theorem cl8_self_assignment (np nm : Int) (movers : List Int) (u : Int → Bool)
    (acc : Phase2Out) (n : Nat)
    (h : (np - 1) - (n : Int) = movers.getD (nm - (n : Int) - 1).toNat 0) :
    backfillStep np nm movers u acc n = acc := by
  rw [backfillStep_ite, if_pos h]

theorem cl8_witness :
    ((4 : Int) - 1) - ((0 : Nat) : Int) =
        [(0 : Int), 3].getD ((2 : Int) - ((0 : Nat) : Int) - 1).toNat 0 ∧
      backfillStep 4 2 [0, 3] (gapMarker 4 2 [0, 3])
        ⟨testState, [], []⟩ 0 = ⟨testState, [], []⟩ :=
  ⟨by decide,
    cl8_self_assignment 4 2 [0, 3] (gapMarker 4 2 [0, 3])
      ⟨testState, [], []⟩ 0 (by decide)⟩

/-- C9: calling compress with `nm = 0` leaves every field of every slot of
the particle state unchanged and records nothing in either deferred list. -/
theorem cl9_trivial_case (np : Int) (movers : List Int) (st : CompressState) :
    compress np 0 movers st = st ∧
    (backfill np 0 movers (gapMarker np 0 movers) st).clean_up_from = [] ∧
    (backfill np 0 movers (gapMarker np 0 movers) st).clean_up_to = [] :=
  ⟨rfl, rfl, rfl⟩

/-- C2 (counterexample): the claim says a deferred-source entry is recorded
iff `pull_from` is itself a gap per the marker.  At `np = 4`, `nm = 2`,
`movers = [3, 1]`, unit `n = 1` has `pull_from = 2`, `write_to = 3` in the
shrinking trailing region, the marker at `(np-1) - pull_from = 1` is `false`
(slot 2 is not a gap), yet `pull_from` IS appended to `clean_up_from`. -/
theorem cl2_counterexample :
    [(3 : Int), 1].getD ((2 : Int) - ((1 : Nat) : Int) - 1).toNat 0 = 3 ∧
    (4 : Int) - 2 ≤ 3 ∧
    ((4 : Int) - 1) - ((1 : Nat) : Int) = 2 ∧
    gapMarker 4 2 [3, 1] (((4 : Int) - 1) - 2) = false ∧
    (backfillStep 4 2 [3, 1] (gapMarker 4 2 [3, 1])
      ⟨testState, [], []⟩ 1).clean_up_from = [2] := by
  decide

/-- C2 (amended): in the backfill phase, for a unit of work with
`pull_from ≠ write_to` and `write_to` in the shrinking trailing region
(`write_to ≥ np - nm`, and `pull_from ≥ np - nm`, which always holds for
in-range units), `pull_from` is appended to the deferred-source list if and
only if the danger-zone marker at index `(np-1) - pull_from` says `pull_from`
is NOT itself a gap; otherwise nothing is recorded; in neither case is any
particle data written or anything appended to the deferred-destination
list. -/
theorem cl2_amended_deferred_source (np nm : Int) (movers : List Int)
    (u : Int → Bool) (acc : Phase2Out) (n : Nat)
    (h1 : (np - 1) - (n : Int) ≠ movers.getD (nm - (n : Int) - 1).toNat 0)
    (h2 : movers.getD (nm - (n : Int) - 1).toNat 0 ≥ np - nm)
    (h3 : (np - 1) - (n : Int) ≥ np - nm) :
    (backfillStep np nm movers u acc n).st = acc.st ∧
    (backfillStep np nm movers u acc n).clean_up_to = acc.clean_up_to ∧
    (backfillStep np nm movers u acc n).clean_up_from =
      (if u ((np - 1) - ((np - 1) - (n : Int))) = false
        then acc.clean_up_from ++ [(np - 1) - (n : Int)]
        else acc.clean_up_from) := by
  rw [backfillStep_ite, if_neg h1, if_pos h2, if_pos h3]
  by_cases h4 : u ((np - 1) - ((np - 1) - (n : Int))) = false
  · rw [if_pos h4, if_pos h4]
    exact ⟨rfl, rfl, rfl⟩
  · rw [if_neg h4, if_neg h4]
    exact ⟨rfl, rfl, rfl⟩

theorem cl2_witness :
    (((4 : Int) - 1) - ((1 : Nat) : Int) ≠
        [(3 : Int), 1].getD ((2 : Int) - ((1 : Nat) : Int) - 1).toNat 0) ∧
    ([(3 : Int), 1].getD ((2 : Int) - ((1 : Nat) : Int) - 1).toNat 0 ≥ 4 - 2) ∧
    (((4 : Int) - 1) - ((1 : Nat) : Int) ≥ 4 - 2) ∧
    ((backfillStep 4 2 [3, 1] (gapMarker 4 2 [3, 1])
        ⟨testState, [], []⟩ 1).st = (⟨testState, [], []⟩ : Phase2Out).st ∧
      (backfillStep 4 2 [3, 1] (gapMarker 4 2 [3, 1])
        ⟨testState, [], []⟩ 1).clean_up_to =
          (⟨testState, [], []⟩ : Phase2Out).clean_up_to ∧
      (backfillStep 4 2 [3, 1] (gapMarker 4 2 [3, 1])
        ⟨testState, [], []⟩ 1).clean_up_from =
        (if gapMarker 4 2 [3, 1]
              (((4 : Int) - 1) - (((4 : Int) - 1) - ((1 : Nat) : Int))) = false
          then (⟨testState, [], []⟩ : Phase2Out).clean_up_from ++
            [((4 : Int) - 1) - ((1 : Nat) : Int)]
          else (⟨testState, [], []⟩ : Phase2Out).clean_up_from)) :=
  ⟨by decide, by decide, by decide,
    cl2_amended_deferred_source 4 2 [3, 1] (gapMarker 4 2 [3, 1])
      ⟨testState, [], []⟩ 1 (by decide) (by decide) (by decide)⟩

/-- C5: for `np = 6`, `nm = 3`, `movers = [1, 3, 4]`, the multiset of full
records surviving in slots `[0, 3)` equals the multiset of the original
records of slots 0, 2 and 5, and the reconciliation phase is exercised (the
deferred-source list is nonempty after the backfill phase). -/
theorem cl5_danger_zone_case (st : CompressState) :
    ({record (compress 6 3 [1, 3, 4] st) 0,
      record (compress 6 3 [1, 3, 4] st) 1,
      record (compress 6 3 [1, 3, 4] st) 2} : Multiset (Particle × Int)) =
      {record st 0, record st 2, record st 5} ∧
    (backfill 6 3 [1, 3, 4] (gapMarker 6 3 [1, 3, 4]) st).clean_up_from ≠ [] := by
  constructor
  · have e0 : record (compress 6 3 [1, 3, 4] st) 0 = record st 0 := rfl
    have e1 : record (compress 6 3 [1, 3, 4] st) 1 = record st 5 := rfl
    have e2 : record (compress 6 3 [1, 3, 4] st) 2 = record st 2 := rfl
    rw [e0, e1, e2]
    exact congrArg (Multiset.cons (record st 0))
      (Multiset.cons_swap (record st 5) (record st 2) 0)
  · intro hcontra
    have he : (backfill 6 3 [1, 3, 4] (gapMarker 6 3 [1, 3, 4])
        st).clean_up_from = [5] := rfl
    rw [he] at hcontra
    cases hcontra

/-- C6: for `np = 10`, `nm = 2`, `movers = [2, 5]` (no danger-zone overlap),
slot 5 receives the whole original record of slot 9, slot 2 the whole
original record of slot 8, slots 0, 1, 3, 4, 6, 7 are unchanged in every
field, and nothing is recorded in either deferred list. -/
theorem cl6_simple_case (st : CompressState) :
    record (compress 10 2 [2, 5] st) 5 = record st 9 ∧
    record (compress 10 2 [2, 5] st) 2 = record st 8 ∧
    record (compress 10 2 [2, 5] st) 0 = record st 0 ∧
    record (compress 10 2 [2, 5] st) 1 = record st 1 ∧
    record (compress 10 2 [2, 5] st) 3 = record st 3 ∧
    record (compress 10 2 [2, 5] st) 4 = record st 4 ∧
    record (compress 10 2 [2, 5] st) 6 = record st 6 ∧
    record (compress 10 2 [2, 5] st) 7 = record st 7 ∧
    (backfill 10 2 [2, 5] (gapMarker 10 2 [2, 5]) st).clean_up_from = [] ∧
    (backfill 10 2 [2, 5] (gapMarker 10 2 [2, 5]) st).clean_up_to = [] :=
  ⟨rfl, rfl, rfl, rfl, rfl, rfl, rfl, rfl, rfl, rfl⟩

/-! ### Counting: the two deferred lists always have the same length

Write `T n` for "the destination of unit `n` lies in the shrinking tail"
and `G n` for "the pull source of unit `n` is itself a gap".  The
deferred-source list collects the units with `T ∧ ¬G` and the
deferred-destination list the units with `¬T ∧ G`; both counts equal the
number of movers in the tail region minus the units with `T ∧ G`. -/

theorem filter_length_eq_card (n : Nat) (p : Nat → Bool) :
    ((List.range n).filter p).length =
      ((Finset.range n).filter (fun k => p k = true)).card := by
  rw [Finset.card_def, Finset.filter_val, Finset.range_val, Multiset.range,
    Multiset.filter_coe, Multiset.coe_card]
  simp

theorem card_filter_and_split (s : Finset ℕ) (p q : ℕ → Prop)
    [DecidablePred p] [DecidablePred q] :
    (s.filter (fun n => p n ∧ ¬ q n)).card + (s.filter (fun n => p n ∧ q n)).card
      = (s.filter p).card := by
  rw [← Finset.filter_filter p (fun n => ¬ q n), ← Finset.filter_filter p q,
    Nat.add_comm]
  exact Finset.filter_card_add_filter_neg_card_eq_card q

theorem card_tail_dest (np nm : Int) (movers : List Int)
    (h : ValidInput np nm movers) :
    ((Finset.range nm.toNat).filter
        (fun n : Nat => np - nm ≤ movers.getD (nm - (n : Int) - 1).toNat 0)).card =
      ((Finset.range nm.toNat).filter
        (fun i => np - nm ≤ movers.getD i 0)).card := by
  apply Finset.card_bij (fun n _ => nm.toNat - 1 - n)
  · intro a ha
    rw [Finset.mem_filter, Finset.mem_range] at ha ⊢
    obtain ⟨ha1, ha2⟩ := ha
    refine ⟨by omega, ?_⟩
    rw [show nm.toNat - 1 - a = (nm - (a : Int) - 1).toNat from by omega]
    exact ha2
  · intro a ha b hb hab
    rw [Finset.mem_filter, Finset.mem_range] at ha hb
    omega
  · intro b hb
    rw [Finset.mem_filter, Finset.mem_range] at hb
    obtain ⟨hb1, hb2⟩ := hb
    refine ⟨nm.toNat - 1 - b, ?_, by omega⟩
    rw [Finset.mem_filter, Finset.mem_range]
    refine ⟨by omega, ?_⟩
    rw [show (nm - ((nm.toNat - 1 - b : Nat) : Int) - 1).toNat = b from by omega]
    exact hb2

theorem card_idx_movers (np nm : Int) (movers : List Int)
    (h : ValidInput np nm movers) :
    ((Finset.range nm.toNat).filter (fun i => np - nm ≤ movers.getD i 0)).card =
      (movers.toFinset.filter (fun m => np - nm ≤ m)).card := by
  have hlen := h.len
  apply Finset.card_bij (fun i _ => movers.getD i 0)
  · intro a ha
    rw [Finset.mem_filter, Finset.mem_range] at ha
    rw [Finset.mem_filter, List.mem_toFinset]
    exact ⟨getD_mem_of_lt movers a (by omega), ha.2⟩
  · intro a ha b hb hab
    rw [Finset.mem_filter, Finset.mem_range] at ha hb
    have ha1 : a < movers.length := by omega
    have hb1 : b < movers.length := by omega
    rw [List.getD_eq_getElem movers 0 ha1, List.getD_eq_getElem movers 0 hb1] at hab
    exact (List.Nodup.getElem_inj_iff h.nodup).mp hab
  · intro m hm
    rw [Finset.mem_filter, List.mem_toFinset] at hm
    obtain ⟨i, hi, hval⟩ := List.mem_iff_getElem.mp hm.1
    refine ⟨i, ?_, ?_⟩
    · rw [Finset.mem_filter, Finset.mem_range]
      rw [List.getD_eq_getElem movers 0 hi, hval]
      exact ⟨by omega, hm.2⟩
    · rw [List.getD_eq_getElem movers 0 hi, hval]

theorem card_gap_src (np nm : Int) (movers : List Int)
    (h : ValidInput np nm movers) :
    ((Finset.range nm.toNat).filter
        (fun n : Nat => ((np - 1) - (n : Int)) ∈ movers)).card =
      (movers.toFinset.filter (fun m => np - nm ≤ m)).card := by
  have hnm := h.nm_nonneg
  apply Finset.card_bij (fun (n : Nat) (_ : n ∈ (Finset.range nm.toNat).filter
    (fun n : Nat => ((np - 1) - (n : Int)) ∈ movers)) => (np - 1) - (n : Int))
  · intro a ha
    rw [Finset.mem_filter, Finset.mem_range] at ha
    rw [Finset.mem_filter, List.mem_toFinset]
    exact ⟨ha.2, by omega⟩
  · intro a ha b hb hab
    omega
  · intro m hm
    rw [Finset.mem_filter, List.mem_toFinset] at hm
    have hb := h.bounds m hm.1
    refine ⟨(np - 1 - m).toNat, ?_, by omega⟩
    rw [Finset.mem_filter, Finset.mem_range]
    refine ⟨by omega, ?_⟩
    rw [show (np - 1) - (((np - 1 - m).toNat : Nat) : Int) = m from by omega]
    exact hm.1

/-- On a valid input the deferred-source and deferred-destination lists of
the backfill phase have the same length (whatever the particle data). -/
theorem clean_up_length_eq (np nm : Int) (movers : List Int)
    (h : ValidInput np nm movers) (st : CompressState) :
    (backfill np nm movers (gapMarker np nm movers) st).clean_up_from.length =
      (backfill np nm movers (gapMarker np nm movers) st).clean_up_to.length := by
  rw [backfill_from, backfill_to, List.length_map, List.length_map,
    filter_length_eq_card, filter_length_eq_card]
  have hfromc : (Finset.range nm.toNat).filter
      (fun n => condFromB np nm movers (gapMarker np nm movers) n = true) =
      (Finset.range nm.toNat).filter
        (fun n : Nat => (np - nm ≤ movers.getD (nm - (n : Int) - 1).toNat 0) ∧
          ¬ ((np - 1) - (n : Int)) ∈ movers) := by
    apply Finset.filter_congr
    intro n hn
    rw [Finset.mem_range] at hn
    exact condFromB_iff np nm movers h n hn
  have htoc : (Finset.range nm.toNat).filter
      (fun n => condToB np nm movers (gapMarker np nm movers) n = true) =
      (Finset.range nm.toNat).filter
        (fun n : Nat => ((np - 1) - (n : Int)) ∈ movers ∧
          ¬ np - nm ≤ movers.getD (nm - (n : Int) - 1).toNat 0) := by
    apply Finset.filter_congr
    intro n hn
    rw [Finset.mem_range] at hn
    rw [condToB_iff np nm movers h n hn]
    exact and_comm
  rw [hfromc, htoc]
  have hsplit1 := card_filter_and_split (Finset.range nm.toNat)
    (fun n : Nat => np - nm ≤ movers.getD (nm - (n : Int) - 1).toNat 0)
    (fun n : Nat => ((np - 1) - (n : Int)) ∈ movers)
  have hsplit2 := card_filter_and_split (Finset.range nm.toNat)
    (fun n : Nat => ((np - 1) - (n : Int)) ∈ movers)
    (fun n : Nat => np - nm ≤ movers.getD (nm - (n : Int) - 1).toNat 0)
  have hcross : ((Finset.range nm.toNat).filter
      (fun n : Nat => ((np - 1) - (n : Int)) ∈ movers ∧
        np - nm ≤ movers.getD (nm - (n : Int) - 1).toNat 0)).card =
      ((Finset.range nm.toNat).filter
        (fun n : Nat => (np - nm ≤ movers.getD (nm - (n : Int) - 1).toNat 0) ∧
          ((np - 1) - (n : Int)) ∈ movers)).card := by
    congr 1
    apply Finset.filter_congr
    intro n hn
    exact and_comm
  have hTG := (card_tail_dest np nm movers h).trans
    ((card_idx_movers np nm movers h).trans (card_gap_src np nm movers h).symm)
  omega

/-- C3: after the backfill phase the deferred-source and
deferred-destination lists have equal lengths, so the reconciliation loop,
which runs `clean_up_from_count` iterations and reads entry `n` of both
lists, never reads an unpopulated entry of either list. -/
theorem cl3_deferred_lists_match (np nm : Int) (movers : List Int)
    (st : CompressState) (h : ValidInput np nm movers) :
    (backfill np nm movers (gapMarker np nm movers) st).clean_up_from.length =
      (backfill np nm movers (gapMarker np nm movers) st).clean_up_to.length ∧
    (∀ n : Nat,
      n < (backfill np nm movers (gapMarker np nm movers) st).clean_up_from.length →
      n < (backfill np nm movers (gapMarker np nm movers) st).clean_up_to.length) := by
  have he := clean_up_length_eq np nm movers h st
  exact ⟨he, fun n hn => he ▸ hn⟩

theorem cl3_witness :
    ValidInput 4 2 [3, 1] ∧
    ((backfill 4 2 [3, 1] (gapMarker 4 2 [3, 1]) testState).clean_up_from.length =
        (backfill 4 2 [3, 1] (gapMarker 4 2 [3, 1]) testState).clean_up_to.length ∧
      (∀ n : Nat,
        n < (backfill 4 2 [3, 1] (gapMarker 4 2 [3, 1]) testState).clean_up_from.length →
        n < (backfill 4 2 [3, 1] (gapMarker 4 2 [3, 1]) testState).clean_up_to.length)) :=
  ⟨by decide, cl3_deferred_lists_match 4 2 [3, 1] testState (by decide)⟩

/-! ### Membership in the deferred lists and in the pair lists -/

theorem mem_backfill_from_iff (np nm : Int) (movers : List Int)
    (h : ValidInput np nm movers) (st : CompressState) (x : Int) :
    x ∈ (backfill np nm movers (gapMarker np nm movers) st).clean_up_from ↔
      ∃ n : Nat, n < nm.toNat ∧
        np - nm ≤ movers.getD (nm - (n : Int) - 1).toNat 0 ∧
        ((np - 1) - (n : Int)) ∉ movers ∧ x = (np - 1) - (n : Int) := by
  rw [backfill_from]
  constructor
  · intro hx
    obtain ⟨n, hn, hxeq⟩ := List.mem_map.mp hx
    obtain ⟨hnr, hcond⟩ := List.mem_filter.mp hn
    rw [List.mem_range] at hnr
    obtain ⟨hc1, hc2⟩ := (condFromB_iff np nm movers h n hnr).mp hcond
    exact ⟨n, hnr, hc1, hc2, hxeq.symm⟩
  · rintro ⟨n, hnr, hc1, hc2, rfl⟩
    apply List.mem_map.mpr
    refine ⟨n, ?_, rfl⟩
    apply List.mem_filter.mpr
    exact ⟨List.mem_range.mpr hnr,
      (condFromB_iff np nm movers h n hnr).mpr ⟨hc1, hc2⟩⟩

theorem mem_backfill_to_iff (np nm : Int) (movers : List Int)
    (h : ValidInput np nm movers) (st : CompressState) (x : Int) :
    x ∈ (backfill np nm movers (gapMarker np nm movers) st).clean_up_to ↔
      ∃ n : Nat, n < nm.toNat ∧
        ¬ np - nm ≤ movers.getD (nm - (n : Int) - 1).toNat 0 ∧
        ((np - 1) - (n : Int)) ∈ movers ∧
        x = movers.getD (nm - (n : Int) - 1).toNat 0 := by
  rw [backfill_to]
  constructor
  · intro hx
    obtain ⟨n, hn, hxeq⟩ := List.mem_map.mp hx
    obtain ⟨hnr, hcond⟩ := List.mem_filter.mp hn
    rw [List.mem_range] at hnr
    obtain ⟨hc1, hc2⟩ := (condToB_iff np nm movers h n hnr).mp hcond
    exact ⟨n, hnr, hc1, hc2, hxeq.symm⟩
  · rintro ⟨n, hnr, hc1, hc2, rfl⟩
    apply List.mem_map.mpr
    refine ⟨n, ?_, rfl⟩
    apply List.mem_filter.mpr
    exact ⟨List.mem_range.mpr hnr,
      (condToB_iff np nm movers h n hnr).mpr ⟨hc1, hc2⟩⟩

theorem mem_phase3Pairs_iff (cf ct : List Int) (p : Int × Int) :
    p ∈ phase3Pairs cf ct ↔
      ∃ j : Nat, j < cf.length ∧ p = (ct.getD j 0, cf.getD j 0) := by
  rw [phase3Pairs]
  constructor
  · intro hp
    obtain ⟨j, hj, he⟩ := List.mem_map.mp hp
    exact ⟨j, List.mem_range.mp hj, he.symm⟩
  · rintro ⟨j, hj, rfl⟩
    exact List.mem_map.mpr ⟨j, List.mem_range.mpr hj, rfl⟩

theorem phase3Pairs_map_snd (cf ct : List Int) :
    (phase3Pairs cf ct).map Prod.snd = cf := by
  rw [phase3Pairs, List.map_map]
  exact map_getD_range cf

theorem phase3Pairs_map_fst (cf ct : List Int) (hlen : cf.length = ct.length) :
    (phase3Pairs cf ct).map Prod.fst = ct := by
  rw [phase3Pairs, List.map_map, hlen]
  exact map_getD_range ct

/-- The slots written by the two copying phases together are exactly the
movers below the new active count `np - nm`. -/
theorem pairs_fst_mem_iff (np nm : Int) (movers : List Int)
    (h : ValidInput np nm movers) (st : CompressState) (x : Int) :
    x ∈ (phase2Pairs np nm movers (gapMarker np nm movers) ++
        phase3Pairs
          (backfill np nm movers (gapMarker np nm movers) st).clean_up_from
          (backfill np nm movers (gapMarker np nm movers) st).clean_up_to).map
        Prod.fst ↔
      (x ∈ movers ∧ 0 ≤ x ∧ x < np - nm) := by
  rw [List.map_append, List.mem_append,
    phase3Pairs_map_fst _ _ (clean_up_length_eq np nm movers h st)]
  constructor
  · rintro (hx | hx)
    · rw [phase2Pairs, List.map_map] at hx
      obtain ⟨n, hn, he⟩ := List.mem_map.mp hx
      obtain ⟨hnr, hcond⟩ := List.mem_filter.mp hn
      rw [List.mem_range] at hnr
      obtain ⟨hc1, -⟩ := (condCopyB_iff np nm movers h n hnr).mp hcond
      have he1 : movers.getD (nm - (n : Int) - 1).toNat 0 = x := he
      have hxm : x ∈ movers := he1 ▸ writeTo_mem np nm movers h n hnr
      have hb := h.bounds x hxm
      exact ⟨hxm, hb.1, by omega⟩
    · obtain ⟨n, hnr, hc1, hc2, rfl⟩ :=
        (mem_backfill_to_iff np nm movers h st x).mp hx
      have hxm := writeTo_mem np nm movers h n hnr
      have hb := h.bounds _ hxm
      exact ⟨hxm, hb.1, by omega⟩
  · rintro ⟨hxm, hx0, hxd⟩
    obtain ⟨i, hi, hval⟩ := List.mem_iff_getElem.mp hxm
    have hlen := h.len
    have hnmn := h.nm_nonneg
    have hwt : movers.getD (nm - ((nm.toNat - 1 - i : Nat) : Int) - 1).toNat 0 = x := by
      rw [show (nm - ((nm.toNat - 1 - i : Nat) : Int) - 1).toNat = i from by omega]
      rw [List.getD_eq_getElem movers 0 hi, hval]
    by_cases hg : ((np - 1) - ((nm.toNat - 1 - i : Nat) : Int)) ∈ movers
    · right
      apply (mem_backfill_to_iff np nm movers h st x).mpr
      exact ⟨nm.toNat - 1 - i, by omega, by rw [hwt]; omega, hg, hwt.symm⟩
    · left
      rw [phase2Pairs, List.map_map]
      apply List.mem_map.mpr
      refine ⟨nm.toNat - 1 - i, ?_, hwt⟩
      apply List.mem_filter.mpr
      refine ⟨List.mem_range.mpr (by omega), ?_⟩
      apply (condCopyB_iff np nm movers h _ (by omega)).mpr
      exact ⟨by rw [hwt]; omega, hg⟩

/-- The slots read by the two copying phases together are exactly the live
slots of the disappearing tail `[np - nm, np)`. -/
theorem pairs_snd_mem_iff (np nm : Int) (movers : List Int)
    (h : ValidInput np nm movers) (st : CompressState) (x : Int) :
    x ∈ (phase2Pairs np nm movers (gapMarker np nm movers) ++
        phase3Pairs
          (backfill np nm movers (gapMarker np nm movers) st).clean_up_from
          (backfill np nm movers (gapMarker np nm movers) st).clean_up_to).map
        Prod.snd ↔
      (np - nm ≤ x ∧ x < np ∧ x ∉ movers) := by
  rw [List.map_append, List.mem_append, phase3Pairs_map_snd]
  constructor
  · rintro (hx | hx)
    · rw [phase2Pairs, List.map_map] at hx
      obtain ⟨n, hn, he⟩ := List.mem_map.mp hx
      obtain ⟨hnr, hcond⟩ := List.mem_filter.mp hn
      rw [List.mem_range] at hnr
      obtain ⟨-, hc2⟩ := (condCopyB_iff np nm movers h n hnr).mp hcond
      have he1 : (np - 1) - (n : Int) = x := he
      have hnmn := h.nm_nonneg
      refine ⟨by omega, by omega, ?_⟩
      rw [← he1]
      exact hc2
    · obtain ⟨n, hnr, hc1, hc2, rfl⟩ :=
        (mem_backfill_from_iff np nm movers h st x).mp hx
      have hnmn := h.nm_nonneg
      exact ⟨by omega, by omega, hc2⟩
  · rintro ⟨hx1, hx2, hx3⟩
    have hnmn := h.nm_nonneg
    have hpf : (np - 1) - (((np - 1 - x).toNat : Nat) : Int) = x := by omega
    by_cases hg : np - nm ≤
        movers.getD (nm - (((np - 1 - x).toNat : Nat) : Int) - 1).toNat 0
    · right
      apply (mem_backfill_from_iff np nm movers h st x).mpr
      exact ⟨(np - 1 - x).toNat, by omega, hg, by rw [hpf]; exact hx3, hpf.symm⟩
    · left
      rw [phase2Pairs, List.map_map]
      apply List.mem_map.mpr
      refine ⟨(np - 1 - x).toNat, ?_, hpf⟩
      apply List.mem_filter.mpr
      refine ⟨List.mem_range.mpr (by omega), ?_⟩
      apply (condCopyB_iff np nm movers h _ (by omega)).mpr
      refine ⟨hg, ?_⟩
      rw [hpf]
      exact hx3

/-- No slot is the destination of two different whole-record copies across
the backfill and reconciliation phases. -/
theorem pairs_fst_nodup (np nm : Int) (movers : List Int)
    (h : ValidInput np nm movers) (st : CompressState) :
    ((phase2Pairs np nm movers (gapMarker np nm movers) ++
        phase3Pairs
          (backfill np nm movers (gapMarker np nm movers) st).clean_up_from
          (backfill np nm movers (gapMarker np nm movers) st).clean_up_to).map
        Prod.fst).Nodup := by
  rw [List.map_append,
    phase3Pairs_map_fst _ _ (clean_up_length_eq np nm movers h st)]
  apply List.Nodup.append
  · rw [phase2Pairs, List.map_map]
    apply List.Nodup.map_on
    · intro a ha b hb hab
      obtain ⟨har, -⟩ := List.mem_filter.mp ha
      obtain ⟨hbr, -⟩ := List.mem_filter.mp hb
      rw [List.mem_range] at har hbr
      exact writeTo_inj np nm movers h a b har hbr hab
    · exact List.Nodup.filter _ (List.nodup_range nm.toNat)
  · rw [backfill_to]
    apply List.Nodup.map_on
    · intro a ha b hb hab
      obtain ⟨har, -⟩ := List.mem_filter.mp ha
      obtain ⟨hbr, -⟩ := List.mem_filter.mp hb
      rw [List.mem_range] at har hbr
      exact writeTo_inj np nm movers h a b har hbr hab
    · exact List.Nodup.filter _ (List.nodup_range nm.toNat)
  · rw [List.disjoint_left]
    intro x hx1 hx2
    rw [phase2Pairs, List.map_map] at hx1
    obtain ⟨a, ha, hae⟩ := List.mem_map.mp hx1
    obtain ⟨har, hac⟩ := List.mem_filter.mp ha
    rw [List.mem_range] at har
    obtain ⟨b, hbr, hbc1, hbc2, hbe⟩ :=
      (mem_backfill_to_iff np nm movers h st x).mp hx2
    have hae1 : movers.getD (nm - (a : Int) - 1).toNat 0 = x := hae
    have hab : a = b :=
      writeTo_inj np nm movers h a b har hbr (hae1.trans hbe)
    obtain ⟨-, hac2⟩ := (condCopyB_iff np nm movers h a har).mp hac
    rw [hab] at hac2
    exact hac2 hbc2

/-- No slot is the source of two different whole-record copies either: the
combined source list repeats no slot. -/
theorem pairs_snd_nodup (np nm : Int) (movers : List Int)
    (h : ValidInput np nm movers) (st : CompressState) :
    ((phase2Pairs np nm movers (gapMarker np nm movers) ++
        phase3Pairs
          (backfill np nm movers (gapMarker np nm movers) st).clean_up_from
          (backfill np nm movers (gapMarker np nm movers) st).clean_up_to).map
        Prod.snd).Nodup := by
  rw [List.map_append, phase3Pairs_map_snd]
  apply List.Nodup.append
  · rw [phase2Pairs, List.map_map]
    apply List.Nodup.map_on
    · intro a ha b hb hab
      have hab1 : (np - 1) - (a : Int) = (np - 1) - (b : Int) := hab
      omega
    · exact List.Nodup.filter _ (List.nodup_range nm.toNat)
  · rw [backfill_from]
    apply List.Nodup.map_on
    · intro a ha b hb hab
      omega
    · exact List.Nodup.filter _ (List.nodup_range nm.toNat)
  · rw [List.disjoint_left]
    intro x hx1 hx2
    rw [phase2Pairs, List.map_map] at hx1
    obtain ⟨a, ha, hae⟩ := List.mem_map.mp hx1
    obtain ⟨har, hac⟩ := List.mem_filter.mp ha
    rw [List.mem_range] at har
    obtain ⟨b, hbr, hbc1, hbc2, hbe⟩ :=
      (mem_backfill_from_iff np nm movers h st x).mp hx2
    have hae1 : (np - 1) - (a : Int) = x := hae
    have hab : a = b := by omega
    obtain ⟨hac1, -⟩ := (condCopyB_iff np nm movers h a har).mp hac
    rw [hab] at hac1
    exact hac1 hbc1

/-! ### The conservation argument -/

theorem union_val_of_disjoint (s t : Finset Int) (hd : Disjoint s t) :
    (s ∪ t).val = s.val + t.val := by
  rw [← Finset.disjUnion_eq_union s t hd]
  rfl

theorem nodup_list_toFinset_val (W : List Int) (h : W.Nodup) :
    W.toFinset.val = (↑W : Multiset Int) := by
  rw [show W.toFinset = (↑W : Multiset Int).toFinset from rfl, Multiset.toFinset_val,
    Multiset.dedup_eq_self.mpr (Multiset.coe_nodup.mpr h)]

/-- Core conservation fact: folding a list of whole-record copies whose
destinations are exactly the movers below `dz`, each written once, and whose
sources are exactly the live slots of `[dz, np)`, each read once, turns the
record multiset of `[0, dz)` into the record multiset of `[0, np)` minus the
mover records. -/
theorem copyFold_multiset (st : CompressState) (L : List (Int × Int))
    (dz np : Int) (movers : List Int)
    (hnd : (L.map Prod.fst).Nodup)
    (hsnd : (L.map Prod.snd).Nodup)
    (hfst_iff : ∀ x : Int, x ∈ L.map Prod.fst ↔ (x ∈ movers ∧ 0 ≤ x ∧ x < dz))
    (hsnd_iff : ∀ x : Int, x ∈ L.map Prod.snd ↔ (dz ≤ x ∧ x < np ∧ x ∉ movers))
    (hmnd : movers.Nodup)
    (hmb : ∀ m ∈ movers, 0 ≤ m ∧ m < np)
    (hdz1 : 0 ≤ dz) (hdz2 : dz ≤ np) :
    Multiset.map (record (copyFold st L)) (Finset.Ico (0 : Int) dz).val
        + Multiset.map (record st) (↑movers : Multiset Int)
      = Multiset.map (record st) (Finset.Ico (0 : Int) np).val := by
  have hnotw : ∀ k : Int, k ∉ L.map Prod.fst →
      record (copyFold st L) k = record st k := by
    intro k hk
    apply copyFold_record_not_written
    intro p hp hpk
    exact hk (hpk ▸ List.mem_map.mpr ⟨p, hp, rfl⟩)
  have hsep : ∀ p ∈ L, ∀ q ∈ L, p.1 ≠ q.2 := by
    intro p hp q hq
    have h1 := (hfst_iff p.1).mp (List.mem_map.mpr ⟨p, hp, rfl⟩)
    have h2 := (hsnd_iff q.2).mp (List.mem_map.mpr ⟨q, hq, rfl⟩)
    omega
  have hwrt : ∀ p ∈ L, record (copyFold st L) p.1 = record st p.2 := by
    intro p hp
    apply copyFold_record_written L p.1 p.2 st hnd hsep
    rw [Prod.mk.eta]
    exact hp
  have hF_sub : movers.toFinset ⊆ Finset.Ico (0 : Int) np := by
    intro m hm
    rw [List.mem_toFinset] at hm
    rw [Finset.mem_Ico]
    exact hmb m hm
  have hW_sub : (L.map Prod.fst).toFinset ⊆ Finset.Ico (0 : Int) dz := by
    intro x hx
    rw [List.mem_toFinset] at hx
    have hx1 := (hfst_iff x).mp hx
    rw [Finset.mem_Ico]
    exact ⟨hx1.2.1, hx1.2.2⟩
  have hsdiff_eq : Finset.Ico (0 : Int) dz \ (L.map Prod.fst).toFinset
      = Finset.Ico (0 : Int) dz \ movers.toFinset := by
    ext k
    simp only [Finset.mem_sdiff, Finset.mem_Ico, List.mem_toFinset, hfst_iff k]
    constructor
    · rintro ⟨hk, hn⟩
      exact ⟨hk, fun hm => hn ⟨hm, hk.1, hk.2⟩⟩
    · rintro ⟨hk, hn⟩
      exact ⟨hk, fun hm => hn hm.1⟩
  have hS_val : (↑(L.map Prod.snd) : Multiset Int)
      = (Finset.Ico dz np \ movers.toFinset).val := by
    apply (Multiset.Nodup.ext (Multiset.coe_nodup.mpr hsnd) (Finset.nodup _)).mpr
    intro a
    rw [Multiset.mem_coe, hsnd_iff a, Finset.mem_val, Finset.mem_sdiff,
      Finset.mem_Ico, List.mem_toFinset]
    constructor
    · rintro ⟨h1, h2, h3⟩
      exact ⟨⟨h1, h2⟩, h3⟩
    · rintro ⟨⟨h1, h2⟩, h3⟩
      exact ⟨h1, h2, h3⟩
  have hM_val : movers.toFinset.val = (↑movers : Multiset Int) :=
    nodup_list_toFinset_val movers hmnd
  have hdisj0 : Disjoint (Finset.Ico (0 : Int) dz) (Finset.Ico dz np) :=
    Finset.Ico_disjoint_Ico_consecutive 0 dz np
  have hIco_np : (Finset.Ico (0 : Int) np).val =
      (Finset.Ico (0 : Int) dz \ movers.toFinset).val +
      (Finset.Ico dz np \ movers.toFinset).val + movers.toFinset.val := by
    have h1 : Finset.Ico (0 : Int) np =
        (Finset.Ico (0 : Int) np \ movers.toFinset) ∪ movers.toFinset :=
      (Finset.sdiff_union_of_subset hF_sub).symm
    rw [h1, union_val_of_disjoint _ _ Finset.sdiff_disjoint]
    congr 1
    rw [← Finset.Ico_union_Ico_eq_Ico hdz1 hdz2, Finset.union_sdiff_distrib]
    exact union_val_of_disjoint _ _
      (Disjoint.mono Finset.sdiff_subset Finset.sdiff_subset hdisj0)
  have hIco_dz : (Finset.Ico (0 : Int) dz).val =
      (Finset.Ico (0 : Int) dz \ movers.toFinset).val
        + (↑(L.map Prod.fst) : Multiset Int) := by
    have h1 : Finset.Ico (0 : Int) dz =
        (Finset.Ico (0 : Int) dz \ (L.map Prod.fst).toFinset) ∪
          (L.map Prod.fst).toFinset :=
      (Finset.sdiff_union_of_subset hW_sub).symm
    rw [show (Finset.Ico (0 : Int) dz).val =
        ((Finset.Ico (0 : Int) dz \ (L.map Prod.fst).toFinset) ∪
          (L.map Prod.fst).toFinset).val from congrArg Finset.val h1,
      union_val_of_disjoint _ _ Finset.sdiff_disjoint, hsdiff_eq,
      nodup_list_toFinset_val _ hnd]
  have hWmap : Multiset.map (record (copyFold st L))
        (↑(L.map Prod.fst) : Multiset Int)
      = Multiset.map (record st) (↑(L.map Prod.snd) : Multiset Int) := by
    rw [Multiset.map_coe, Multiset.map_coe, List.map_map, List.map_map]
    congr 1
    exact List.map_congr_left hwrt
  have hUmap : Multiset.map (record (copyFold st L))
        (Finset.Ico (0 : Int) dz \ movers.toFinset).val
      = Multiset.map (record st)
        (Finset.Ico (0 : Int) dz \ movers.toFinset).val := by
    apply Multiset.map_congr rfl
    intro x hx
    apply hnotw
    intro hxw
    have hx1 := Finset.mem_sdiff.mp (Finset.mem_val.mp hx)
    exact hx1.2 (List.mem_toFinset.mpr (((hfst_iff x).mp hxw).1))
  rw [hIco_dz, Multiset.map_add, hWmap, hUmap, hS_val, hIco_np, ← hM_val,
    Multiset.map_add, Multiset.map_add]

/-! ### Claim theorems, second batch -/

/-- C1: on any valid input, the multiset of whole records (seven particle
lanes plus identity tag) in slots `[0, np-nm)` after compress, together with
the records that sat at the mover positions before the call, reconstitutes
the whole record multiset of `[0, np)` before the call; in particular the
same holds for identity tags alone. -/
theorem cl1_conservation (np nm : Int) (movers : List Int) (st : CompressState)
    (h : ValidInput np nm movers) :
    (Multiset.map (record (compress np nm movers st))
          (Finset.Ico (0 : Int) (np - nm)).val
        + Multiset.map (record st) (↑movers : Multiset Int)
      = Multiset.map (record st) (Finset.Ico (0 : Int) np).val) ∧
    (Multiset.map (compress np nm movers st).particles_i
          (Finset.Ico (0 : Int) (np - nm)).val
        + Multiset.map st.particles_i (↑movers : Multiset Int)
      = Multiset.map st.particles_i (Finset.Ico (0 : Int) np).val) := by
  have hnm := h.nm_nonneg
  have hle := h.nm_le_np
  have hmain : Multiset.map (record (compress np nm movers st))
        (Finset.Ico (0 : Int) (np - nm)).val
      + Multiset.map (record st) (↑movers : Multiset Int)
      = Multiset.map (record st) (Finset.Ico (0 : Int) np).val := by
    rw [compress_eq_copyFold]
    exact copyFold_multiset st _ (np - nm) np movers
      (pairs_fst_nodup np nm movers h st) (pairs_snd_nodup np nm movers h st)
      (pairs_fst_mem_iff np nm movers h st) (pairs_snd_mem_iff np nm movers h st)
      h.nodup h.bounds (by omega) (by omega)
  refine ⟨hmain, ?_⟩
  have htag := congrArg (Multiset.map Prod.snd) hmain
  simpa [Multiset.map_add, Multiset.map_map, Function.comp, record] using htag

theorem cl1_witness :
    ValidInput 2 1 [0] ∧
    ((Multiset.map (record (compress 2 1 [0] testState))
          (Finset.Ico (0 : Int) (2 - 1)).val
        + Multiset.map (record testState) (↑[(0 : Int)] : Multiset Int)
      = Multiset.map (record testState) (Finset.Ico (0 : Int) 2).val) ∧
    (Multiset.map (compress 2 1 [0] testState).particles_i
          (Finset.Ico (0 : Int) (2 - 1)).val
        + Multiset.map testState.particles_i (↑[(0 : Int)] : Multiset Int)
      = Multiset.map testState.particles_i (Finset.Ico (0 : Int) 2).val)) :=
  ⟨by decide, cl1_conservation 2 1 [0] testState (by decide)⟩

/-- C7: the whole compress call performs exactly the whole-record copies of
the combined backfill and reconciliation pair lists, and no particle-array
slot is the destination of more than one of those copies. -/
theorem cl7_no_double_write (np nm : Int) (movers : List Int)
    (st : CompressState) (h : ValidInput np nm movers) :
    compress np nm movers st =
      copyFold st (phase2Pairs np nm movers (gapMarker np nm movers) ++
        phase3Pairs
          (backfill np nm movers (gapMarker np nm movers) st).clean_up_from
          (backfill np nm movers (gapMarker np nm movers) st).clean_up_to) ∧
    ((phase2Pairs np nm movers (gapMarker np nm movers) ++
        phase3Pairs
          (backfill np nm movers (gapMarker np nm movers) st).clean_up_from
          (backfill np nm movers (gapMarker np nm movers) st).clean_up_to).map
        Prod.fst).Nodup :=
  ⟨compress_eq_copyFold np nm movers st, pairs_fst_nodup np nm movers h st⟩

theorem cl7_witness :
    ValidInput 4 2 [3, 1] ∧
    (compress 4 2 [3, 1] testState =
      copyFold testState (phase2Pairs 4 2 [3, 1] (gapMarker 4 2 [3, 1]) ++
        phase3Pairs
          (backfill 4 2 [3, 1] (gapMarker 4 2 [3, 1]) testState).clean_up_from
          (backfill 4 2 [3, 1] (gapMarker 4 2 [3, 1]) testState).clean_up_to) ∧
    ((phase2Pairs 4 2 [3, 1] (gapMarker 4 2 [3, 1]) ++
        phase3Pairs
          (backfill 4 2 [3, 1] (gapMarker 4 2 [3, 1]) testState).clean_up_from
          (backfill 4 2 [3, 1] (gapMarker 4 2 [3, 1]) testState).clean_up_to).map
        Prod.fst).Nodup) :=
  ⟨by decide, cl7_no_double_write 4 2 [3, 1] testState (by decide)⟩

/-- C10: every array access compress performs on a valid input is in
bounds: the marker index of the marking phase lies in `[0, 2*nm)`; the
backfill `pull_from` lies in `[np-nm, np)` (so the guard at compress.h line
120 always holds), `write_to` lies in `[0, np)`, and both marker lookup
indices lie in `[0, 2*nm)`; the reconciliation phase reads deferred-list
entries that all lie in `[0, np)`. -/
theorem cl10_in_bounds (np nm : Int) (movers : List Int) (st : CompressState)
    (h : ValidInput np nm movers) :
    (∀ i : Nat, i < nm.toNat → np - 2 * nm ≤ movers.getD i 0 →
      (0 ≤ (np - 1) - movers.getD i 0 ∧ (np - 1) - movers.getD i 0 < 2 * nm)) ∧
    (∀ n : Nat, n < nm.toNat →
      (np - nm ≤ (np - 1) - (n : Int) ∧ (np - 1) - (n : Int) < np ∧
        0 ≤ movers.getD (nm - (n : Int) - 1).toNat 0 ∧
        movers.getD (nm - (n : Int) - 1).toNat 0 < np ∧
        0 ≤ (np - 1) - ((np - 1) - (n : Int)) ∧
        (np - 1) - ((np - 1) - (n : Int)) < 2 * nm ∧
        0 ≤ (n : Int) ∧ (n : Int) < 2 * nm)) ∧
    (∀ n : Nat,
      n < (backfill np nm movers (gapMarker np nm movers) st).clean_up_from.length →
      (0 ≤ (backfill np nm movers (gapMarker np nm movers) st).clean_up_from.getD n 0 ∧
        (backfill np nm movers (gapMarker np nm movers) st).clean_up_from.getD n 0 < np) ∧
      (0 ≤ (backfill np nm movers (gapMarker np nm movers) st).clean_up_to.getD n 0 ∧
        (backfill np nm movers (gapMarker np nm movers) st).clean_up_to.getD n 0 < np)) := by
  have hlen := h.len
  have hnm := h.nm_nonneg
  have hle := h.nm_le_np
  refine ⟨?_, ?_, ?_⟩
  · intro i hi hg
    have hb := h.bounds _ (getD_mem_of_lt movers i (by omega))
    omega
  · intro n hn
    have hb := h.bounds _ (writeTo_mem np nm movers h n hn)
    refine ⟨by omega, by omega, hb.1, hb.2, by omega, by omega, by omega, by omega⟩
  · intro n hn
    constructor
    · have hmem : (backfill np nm movers (gapMarker np nm movers)
          st).clean_up_from.getD n 0 ∈
          (backfill np nm movers (gapMarker np nm movers) st).clean_up_from :=
        getD_mem_of_lt _ n hn
      obtain ⟨m, hm, -, -, he⟩ :=
        (mem_backfill_from_iff np nm movers h st _).mp hmem
      constructor
      · omega
      · omega
    · have hn2 : n < (backfill np nm movers (gapMarker np nm movers)
          st).clean_up_to.length := by
        rw [← clean_up_length_eq np nm movers h st]
        exact hn
      have hmem : (backfill np nm movers (gapMarker np nm movers)
          st).clean_up_to.getD n 0 ∈
          (backfill np nm movers (gapMarker np nm movers) st).clean_up_to :=
        getD_mem_of_lt _ n hn2
      obtain ⟨m, hm, -, -, he⟩ :=
        (mem_backfill_to_iff np nm movers h st _).mp hmem
      have hb := h.bounds _ (writeTo_mem np nm movers h m hm)
      constructor
      · omega
      · omega

theorem cl10_witness :
    ValidInput 4 2 [3, 1] ∧
    ((∀ i : Nat, i < (2 : Int).toNat → (4 : Int) - 2 * 2 ≤ [(3 : Int), 1].getD i 0 →
      (0 ≤ ((4 : Int) - 1) - [(3 : Int), 1].getD i 0 ∧
        ((4 : Int) - 1) - [(3 : Int), 1].getD i 0 < 2 * 2)) ∧
    (∀ n : Nat, n < (2 : Int).toNat →
      ((4 : Int) - 2 ≤ ((4 : Int) - 1) - (n : Int) ∧ ((4 : Int) - 1) - (n : Int) < 4 ∧
        0 ≤ [(3 : Int), 1].getD ((2 : Int) - (n : Int) - 1).toNat 0 ∧
        [(3 : Int), 1].getD ((2 : Int) - (n : Int) - 1).toNat 0 < 4 ∧
        0 ≤ ((4 : Int) - 1) - (((4 : Int) - 1) - (n : Int)) ∧
        ((4 : Int) - 1) - (((4 : Int) - 1) - (n : Int)) < 2 * 2 ∧
        0 ≤ (n : Int) ∧ (n : Int) < 2 * 2)) ∧
    (∀ n : Nat,
      n < (backfill 4 2 [3, 1] (gapMarker 4 2 [3, 1]) testState).clean_up_from.length →
      (0 ≤ (backfill 4 2 [3, 1] (gapMarker 4 2 [3, 1]) testState).clean_up_from.getD n 0 ∧
        (backfill 4 2 [3, 1] (gapMarker 4 2 [3, 1]) testState).clean_up_from.getD n 0 < 4) ∧
      (0 ≤ (backfill 4 2 [3, 1] (gapMarker 4 2 [3, 1]) testState).clean_up_to.getD n 0 ∧
        (backfill 4 2 [3, 1] (gapMarker 4 2 [3, 1]) testState).clean_up_to.getD n 0 < 4))) :=
  ⟨by decide, cl10_in_bounds 4 2 [3, 1] testState (by decide)⟩

end VpicCompress
